import Mathlib

/-!
Shallow embedding of the benchmark / metrics-aggregation engine of
`llm-api-speed` (src/main.go), together with theorems settling the frozen
claims C1..C10 about the natural-language specification.

Conventions of the embedding:
* Go `time.Duration` / timestamps are modelled as `Int` nanoseconds
  (Go durations are int64 nanoseconds).
* Go `float64` arithmetic on metrics is modelled exactly over `ℚ`
  (the claims concern sign/zero/ratio facts that are rounding-robust).
* Go integer division (`/` on int, `time.Duration`) truncates toward
  zero and is modelled by `Int.tdiv`.
* The external tokenizer `tke.Encode` is an opaque parameter
  `tke : String → Nat` (the code only uses `len(tke.Encode(s, nil, nil))`).
* A streaming response is modelled as the list of chunks received before
  the terminal `stream.Recv()` outcome (EOF or a receive failure).
-/

namespace LlmApiSpeed

/-- One streamed tool call's function fragment
(`delta.ToolCalls[k].Function` in main.go). -/
structure ToolCallFn where
  name : String
  arguments : String
deriving DecidableEq, Repr

/-- The delta of one choice of a streamed chunk
(`response.Choices[k].Delta`): ordinary content, reasoning content and
tool-call fragments. -/
structure ChunkDelta where
  content : String
  reasoningContent : String
  toolCalls : List ToolCallFn
deriving DecidableEq, Repr

/-- One chunk received from the stream, tagged with the wall-clock time
(ns) at which it is processed (`time.Now()` would return `time` inside
the loop body handling this chunk).  `choices` lists the deltas of the
chunk's choices; the code reads only the first one and skips chunks with
an empty `Choices` array. -/
structure StreamChunk where
  time : Int
  choices : List ChunkDelta
deriving DecidableEq, Repr

/-- How the stream ends: clean end-of-stream (`io.EOF`) or a receive
failure (with the deadline-exceeded flag of the surrounding context). -/
inductive StreamEnd where
  | eof
  | recvFailure (deadlineExceeded : Bool)
deriving DecidableEq, Repr

/-- The typed failure outcomes of a single run (main.go returns these as
formatted error strings; only their identity matters here). -/
inductive RunError where
  | streamCreation
  | timeout
  | streamError
  | noContent
  | emptyCompletion
deriving DecidableEq, Repr

/-- The metrics tuple returned by a successful
`singleTestRun` / `singleToolCallRun`:
`(e2e, ttft, throughput, tokens, response)`. -/
structure RunMetrics where
  e2e : Int
  ttft : Int
  throughput : ℚ
  tokens : Int
  response : String
deriving DecidableEq, Repr

/-- Loop state of the stream-consumption loop: the one-shot
`firstTokenTime` (none while `firstTokenTime.IsZero()`) and the
accumulated `fullResponseContent` buffer. -/
abbrev LoopState := Option Int × String

/-- Processing of one chunk in `singleTestRun` (main.go lines 128-166):
chunks with an empty `Choices` array are skipped; otherwise the first
choice's delta is read, the first chunk carrying non-empty content or
reasoning content sets `firstTokenTime` (set-if-unset), and both kinds
of text are appended to the buffer (content first, then reasoning). -/
def stepPlain (st : LoopState) (c : StreamChunk) : LoopState :=
  match c.choices with
  | [] => st
  | d :: _ =>
    let ft : Option Int :=
      if (d.content ≠ "" ∨ d.reasoningContent ≠ "") ∧ st.1 = none then
        some c.time
      else st.1
    let buf := st.2
      ++ (if d.content ≠ "" then d.content else "")
      ++ (if d.reasoningContent ≠ "" then d.reasoningContent else "")
    (ft, buf)

/-- Serialization of one tool-call fragment for token counting
(main.go lines 339-346): function name then arguments, each only when
non-empty. -/
def toolCallText (tc : ToolCallFn) : String :=
  (if tc.name ≠ "" then tc.name else "")
    ++ (if tc.arguments ≠ "" then tc.arguments else "")

/-- Serialization of a chunk's tool-call fragments, in order. -/
def toolCallsText (l : List ToolCallFn) : String :=
  l.foldl (fun acc tc => acc ++ toolCallText tc) ""

/-- Processing of one chunk in `singleToolCallRun`
(main.go lines 292-347): as `stepPlain`, but a tool-call fragment also
counts as a first-token signal, and tool-call name/arguments text is
appended after content and reasoning. -/
def stepTool (st : LoopState) (c : StreamChunk) : LoopState :=
  match c.choices with
  | [] => st
  | d :: _ =>
    let hasContent := d.content ≠ ""
    let hasReasoningContent := d.reasoningContent ≠ ""
    let hasToolCall := d.toolCalls ≠ []
    let ft : Option Int :=
      if (hasContent ∨ hasReasoningContent ∨ hasToolCall) ∧ st.1 = none then
        some c.time
      else st.1
    let buf := st.2
      ++ (if hasContent then d.content else "")
      ++ (if hasReasoningContent then d.reasoningContent else "")
      ++ (if hasToolCall then toolCallsText d.toolCalls else "")
    (ft, buf)

/-- Tail of both run functions after the stream loop
(main.go lines 169-200 and 350-381, which are textually identical):
fail with `noContent` when no first token was ever seen, tokenize the
accumulated buffer, fail with `emptyCompletion` on a zero count, and
otherwise compute e2e, ttft, generation interval and throughput
(`(tokens - 1) / generationTime.Seconds()`, clamped to `0` when the
interval in seconds is non-positive). -/
def finishStream (tke : String → Nat) (startTime endTime : Int)
    (ft : Option Int) (buf : String) : Except RunError RunMetrics :=
  match ft with
  | none => .error .noContent
  | some firstTokenTime =>
    let completionTokens : Int := (tke buf : Int)
    if completionTokens = 0 then .error .emptyCompletion
    else
      let e2eLatency := endTime - startTime
      let ttftLatency := firstTokenTime - startTime
      let generationTime := e2eLatency - ttftLatency
      let throughputVal : ℚ :=
        if (generationTime : ℚ) / 1000000000 ≤ 0 then 0
        else ((completionTokens : ℚ) - 1) / ((generationTime : ℚ) / 1000000000)
      .ok ⟨e2eLatency, ttftLatency, throughputVal, completionTokens, buf⟩

/-- `singleTestRun` (main.go lines 66-201), over an abstract stream:
`streamErr` models `CreateChatCompletionStream` failing, `events` are
the chunks received before the terminal `Recv` outcome `term`, and
`endTime` is `time.Now()` right after the loop. -/
def singleTestRun (tke : String → Nat) (streamErr : Bool) (startTime : Int)
    (events : List StreamChunk) (term : StreamEnd) (endTime : Int) :
    Except RunError RunMetrics :=
  if streamErr then .error .streamCreation
  else
    match term with
    | .recvFailure true => .error .timeout
    | .recvFailure false => .error .streamError
    | .eof =>
      let st := events.foldl stepPlain (none, "")
      finishStream tke startTime endTime st.1 st.2

/-- `singleToolCallRun` (main.go lines 203-382), over an abstract
stream; identical to `singleTestRun` except for the per-chunk
processing (`stepTool`). -/
def singleToolCallRun (tke : String → Nat) (streamErr : Bool) (startTime : Int)
    (events : List StreamChunk) (term : StreamEnd) (endTime : Int) :
    Except RunError RunMetrics :=
  if streamErr then .error .streamCreation
  else
    match term with
    | .recvFailure true => .error .timeout
    | .recvFailure false => .error .streamError
    | .eof =>
      let st := events.foldl stepTool (none, "")
      finishStream tke startTime endTime st.1 st.2

/-- A chunk carries a plain-mode first-token signal: its `Choices` array
is non-empty and the first choice's delta has non-empty content or
reasoning content. -/
def chunkHasTextPlain (c : StreamChunk) : Bool :=
  match c.choices with
  | [] => false
  | d :: _ => d.content ≠ "" || d.reasoningContent ≠ ""

/-- A chunk carries a tool-mode first-token signal: non-empty `Choices`
whose first delta has non-empty content, non-empty reasoning content, or
at least one tool-call fragment. -/
def chunkHasPayloadTool (c : StreamChunk) : Bool :=
  match c.choices with
  | [] => false
  | d :: _ => d.content ≠ "" || d.reasoningContent ≠ "" || !d.toolCalls.isEmpty

/-- The accumulated response text of a plain run whose stream reached
end-of-stream. -/
def plainResponse (events : List StreamChunk) : String :=
  (events.foldl stepPlain (none, "")).2

/-- The one-shot first-token timestamp of a plain run. -/
def plainFirstTokenTime (events : List StreamChunk) : Option Int :=
  (events.foldl stepPlain (none, "")).1

/-- The accumulated response text of a tool-calling run whose stream
reached end-of-stream. -/
def toolResponse (events : List StreamChunk) : String :=
  (events.foldl stepTool (none, "")).2

/-- The one-shot first-token timestamp of a tool-calling run. -/
def toolFirstTokenTime (events : List StreamChunk) : Option Int :=
  (events.foldl stepTool (none, "")).1

/-! ### Iteration aggregation (`testProviderMetrics`, main.go lines 384-566) -/

/-- One entry of the per-repetition result channel (`runResult` in
`testProviderMetrics`), with the error carried as its message text
(`err.Error()` is what aggregation ultimately consumes). -/
structure RunOutcome where
  e2e : Int
  ttft : Int
  throughput : ℚ
  tokens : Int
  err : Option String
deriving DecidableEq, Repr

/-- Accumulator of the collection loop (main.go lines 500-516). -/
structure IterAcc where
  e2eSum : Int
  ttftSum : Int
  throughputSum : ℚ
  tokensSum : Int
  successfulRuns : Nat
  firstError : Option String
deriving DecidableEq, Repr

/-- One step of the collection loop: a success adds every timing field
to its sum and bumps the success count; a failure is retained only when
it is the first failure seen. -/
def iterStep (acc : IterAcc) (r : RunOutcome) : IterAcc :=
  match r.err with
  | none =>
    { acc with
      e2eSum := acc.e2eSum + r.e2e
      ttftSum := acc.ttftSum + r.ttft
      throughputSum := acc.throughputSum + r.throughput
      tokensSum := acc.tokensSum + r.tokens
      successfulRuns := acc.successfulRuns + 1 }
  | some e =>
    if acc.firstError = none then { acc with firstError := some e } else acc

/-- Draining the result channel until closed (main.go lines 506-516). -/
def iterCollect (l : List RunOutcome) : IterAcc :=
  l.foldl iterStep ⟨0, 0, 0, 0, 0, none⟩

/-- The averaged (or error-only) record produced per provider and mode
(`TestResult` minus the identity/timestamp fields, which aggregation
does not compute). -/
structure TestResultRec where
  e2eLatency : Int
  ttft : Int
  throughput : ℚ
  completionTokens : Int
  success : Bool
  errorMsg : Option String
deriving DecidableEq, Repr

/-- Producing the `TestResult` from the drained channel
(main.go lines 518-566): when zero repetitions succeeded, an error-only
record carrying the first failure's message; otherwise each sum divided
by the number of successful runs (`time.Duration` and `int` division
truncate toward zero, `float64` division is exact here over `ℚ`). -/
def aggregateTestResult (l : List RunOutcome) : TestResultRec :=
  let acc := iterCollect l
  if acc.successfulRuns = 0 then
    ⟨0, 0, 0, 0, false, acc.firstError⟩
  else
    ⟨Int.tdiv acc.e2eSum (acc.successfulRuns : Int),
     Int.tdiv acc.ttftSum (acc.successfulRuns : Int),
     acc.throughputSum / (acc.successfulRuns : ℚ),
     Int.tdiv acc.tokensSum (acc.successfulRuns : Int),
     true, none⟩

/-- The successful outcomes of a batch, in channel order. -/
def successRuns (l : List RunOutcome) : List RunOutcome :=
  l.filter (fun r => r.err = none)

/-- Sum of end-to-end latencies over the successful outcomes. -/
def sumE2E (l : List RunOutcome) : Int :=
  ((successRuns l).map (fun r => r.e2e)).sum

/-- Sum of TTFT latencies over the successful outcomes. -/
def sumTTFT (l : List RunOutcome) : Int :=
  ((successRuns l).map (fun r => r.ttft)).sum

/-- Sum of throughputs over the successful outcomes. -/
def sumThroughput (l : List RunOutcome) : ℚ :=
  ((successRuns l).map (fun r => r.throughput)).sum

/-- Sum of token counts over the successful outcomes. -/
def sumTokens (l : List RunOutcome) : Int :=
  ((successRuns l).map (fun r => r.tokens)).sum

/-- The first failure's error message, in channel order. -/
def firstErrorOf (l : List RunOutcome) : Option String :=
  (l.filterMap (fun r => r.err)).head?

/-! ### Launch plan of an iteration batch (main.go lines 412-497) -/

/-- The three test modes selectable on the command line. -/
inductive TestMode where
  | streaming
  | toolCalling
  | mixed
deriving DecidableEq, Repr

/-- The 5-minute shared deadline of one iteration batch, in ns
(main.go line 413, `5*time.Minute`). -/
def batchTimeoutNs : Int := 5 * 60 * 1000000000

/-- Sub-modes actually run: mixed mode expands to streaming then
tool-calling (main.go lines 417-422). -/
def modesToRun (mode : TestMode) : List TestMode :=
  if mode = .mixed then [.streaming, .toolCalling] else [mode]

/-- Repetitions per constituent mode (main.go line 425). -/
def iterationsPerMode : Nat := 3

/-- The launch loop's plan: run numbers are consecutive from 1 across
modes, `iterationsPerMode` repetitions per mode
(main.go lines 441-491). -/
def plannedRunsFrom : Nat → List TestMode → List (Nat × TestMode)
  | _, [] => []
  | n, m :: ms =>
    (List.range iterationsPerMode).map (fun i => (n + i, m))
      ++ plannedRunsFrom (n + iterationsPerMode) ms

/-- All repetitions launched for one provider invocation. -/
def plannedRuns (mode : TestMode) : List (Nat × TestMode) :=
  plannedRunsFrom 1 (modesToRun mode)

/-- Every launched repetition sends exactly one `runResult` on the
channel, whatever its error status (main.go lines 479-487 run
unconditionally): the batch delivered to the aggregator is the plan
mapped through the per-repetition runner. -/
def runBatch (mode : TestMode) (runner : Nat → TestMode → RunOutcome) :
    List RunOutcome :=
  (plannedRuns mode).map (fun p => runner p.1 p.2)

/-! ### Diagnostic aggregation (`diagnosticMode`, main.go lines 934-1009) -/

/-- Accumulator of the diagnostic collection loop
(main.go lines 935-952).  The Go `errors` map is modelled as its count
function (a missing key reads as 0, exactly as a Go map lookup). -/
structure DiagAcc where
  successCount : Nat
  failureCount : Nat
  totalE2E : Int
  totalTTFT : Int
  totalThroughput : ℚ
  totalTokens : Int
  errCounts : String → Nat

/-- One step of the diagnostic collection loop: failures bump the count
for their exact error message; successes accumulate timing sums. -/
def diagStep (acc : DiagAcc) (r : RunOutcome) : DiagAcc :=
  match r.err with
  | some m =>
    { acc with
      failureCount := acc.failureCount + 1
      errCounts := fun s => if s = m then acc.errCounts s + 1 else acc.errCounts s }
  | none =>
    { acc with
      successCount := acc.successCount + 1
      totalE2E := acc.totalE2E + r.e2e
      totalTTFT := acc.totalTTFT + r.ttft
      totalThroughput := acc.totalThroughput + r.throughput
      totalTokens := acc.totalTokens + r.tokens }

/-- Draining the diagnostic result channel until closed. -/
def diagCollect (l : List RunOutcome) : DiagAcc :=
  l.foldl diagStep ⟨0, 0, 0, 0, 0, 0, fun _ => 0⟩

/-- `DiagnosticSummary` minus the identity/timestamp fields. -/
structure DiagSummaryRec where
  totalRequests : Nat
  successful : Nat
  failed : Nat
  avgE2ELatency : Int
  avgTTFT : Int
  avgThroughput : ℚ
  avgTokens : Int
  errCounts : String → Nat

/-- Building the diagnostic summary (main.go lines 990-1009): counts
always, averaged fields only when at least one request succeeded
(otherwise they keep their zero values), and the error breakdown
(`summary.Errors` is set only when non-empty in Go, but a nil map and an
empty map read identically). -/
def diagnosticSummary (l : List RunOutcome) : DiagSummaryRec :=
  let acc := diagCollect l
  let base : DiagSummaryRec :=
    ⟨acc.successCount + acc.failureCount, acc.successCount, acc.failureCount,
     0, 0, 0, 0, acc.errCounts⟩
  if 0 < acc.successCount then
    { base with
      avgE2ELatency := Int.tdiv acc.totalE2E (acc.successCount : Int)
      avgTTFT := Int.tdiv acc.totalTTFT (acc.successCount : Int)
      avgThroughput := acc.totalThroughput / (acc.successCount : ℚ)
      avgTokens := Int.tdiv acc.totalTokens (acc.successCount : Int) }
  else base

/-! ### Diagnostic worker schedule (`diagnosticMode`, main.go lines 824-926) -/

/-- Session duration: 90 seconds (main.go line 799). -/
def sessionDurationNs : Int := 90 * 1000000000

/-- Per-request timeout: 30 seconds (main.go line 804). -/
def requestTimeoutNs : Int := 30 * 1000000000

/-- Grace period: 5 seconds (main.go line 805). -/
def gracePeriodNs : Int := 5 * 1000000000

/-- Ticker period: 15 seconds (main.go line 832). -/
def tickIntervalNs : Int := 15 * 1000000000

/-- The stop decision taken on a ticker tick (main.go lines 911-921):
stop when the remaining session time is below the per-request timeout
plus the grace period. -/
def workerStopsAtTick (elapsed : Int) : Bool :=
  sessionDurationNs - elapsed < requestTimeoutNs + gracePeriodNs

/-- Request start times of one diagnostic worker whose requests all
complete before the following tick (so that the `select` always resumes
on the ticker, at 15-second boundaries): a request fires immediately at
`t`, then on the tick at `t + 15s` the worker returns if the session has
already ended, stops if insufficient time remains, and otherwise starts
the next request.  `fuel` bounds the recursion and is irrelevant once
large enough. -/
def workerRequestTimes : Nat → Int → List Int
  | 0, _ => []
  | fuel + 1, t =>
    let next := t + tickIntervalNs
    t ::
      (if sessionDurationNs ≤ next then []
       else if workerStopsAtTick next then []
       else workerRequestTimes fuel next)

/-- The request schedule of a worker starting at `t = 0`. -/
def diagWorkerSchedule : List Int := workerRequestTimes 10 0

/-! ### Leaderboard sorting (`generateMarkdownReport`, main.go lines 660-742)

The report sorts the slice of successful results in place with a
double-loop exchange sort (the code comments call it a bubble sort):
`for i; for j > i: if key(a[j]) beats key(a[i]) then swap a[i], a[j]`.
All three views swap when the later element's key is strictly greater
under a suitable orientation, so the sort is modelled once with a
rational-valued key (descending views use the key itself, ascending
views its negation). -/

/-- One pass of the inner loop for a fixed outer index: `x` is the
current `a[i]`; scanning the suffix, every element with a strictly
greater key is swapped into position `i` (becoming the carried value)
while the previously carried value takes its place.  Returns the final
`a[i]` and the modified suffix. -/
def selectOnce (key : α → ℚ) (x : α) : List α → α × List α
  | [] => (x, [])
  | y :: ys =>
    if key x < key y then
      let p := selectOnce key y ys
      (p.1, x :: p.2)
    else
      let p := selectOnce key x ys
      (p.1, y :: p.2)

/-- The outer loop, with explicit fuel (one unit per outer index; fuel
equal to the list length reproduces the source's loop exactly). -/
def exchangeSortFuel (key : α → ℚ) : Nat → List α → List α
  | _, [] => []
  | 0, _ :: _ => []
  | fuel + 1, x :: xs =>
    let p := selectOnce key x xs
    p.1 :: exchangeSortFuel key fuel p.2

/-- The in-place exchange sort of `generateMarkdownReport`, by
descending `key`. -/
def exchangeSort (key : α → ℚ) (l : List α) : List α :=
  exchangeSortFuel key l.length l

/-- The fields of a `TestResult` that the report's leaderboards read. -/
structure ReportResult where
  provider : String
  e2eLatency : Int
  ttft : Int
  throughput : ℚ
  success : Bool
deriving DecidableEq, Repr

/-- The slice of successful results the leaderboards rank
(main.go lines 666-671). -/
def successfulResults (results : List ReportResult) : List ReportResult :=
  results.filter (fun r => r.success)

/-- First view: by throughput, descending (main.go lines 673-680). -/
def leaderboardByThroughput (results : List ReportResult) : List ReportResult :=
  exchangeSort (fun r => r.throughput) (successfulResults results)

/-- Second view: by TTFT, ascending; it re-sorts the slice left by the
first view in place (main.go lines 698-704, swap when
`a[j].TTFT < a[i].TTFT`). -/
def leaderboardByTTFT (results : List ReportResult) : List ReportResult :=
  exchangeSort (fun r => -(r.ttft : ℚ)) (leaderboardByThroughput results)

/-- Third view: by end-to-end latency, ascending; re-sorts the slice
left by the second view (main.go lines 722-728). -/
def leaderboardByE2E (results : List ReportResult) : List ReportResult :=
  exchangeSort (fun r => -(r.e2eLatency : ℚ)) (leaderboardByTTFT results)

/-- A chunk whose first choice's delta carries at least one tool-call
fragment. -/
def chunkHasToolCall (c : StreamChunk) : Bool :=
  match c.choices with
  | [] => false
  | d :: _ => !d.toolCalls.isEmpty

/-- Throughput as the specification words it: `(tokenCount - 1)`
divided by the generation interval in seconds when that interval is
positive, and exactly `0` when it is non-positive.  Stated from the
spec's sentence, to be compared with the value the code computes. -/
def specThroughput (e2e ttft tokens : Int) : ℚ :=
  if 0 < e2e - ttft then
    ((tokens : ℚ) - 1) / (((e2e - ttft : Int) : ℚ) / 1000000000)
  else 0

/-! ## Lemmas about the exchange sort -/

theorem selectOnce_snd_length (key : α → ℚ) (x : α) (l : List α) :
    ((selectOnce key x l).2).length = l.length := by
  induction l generalizing x with
  | nil => rfl
  | cons y ys ih =>
    simp only [selectOnce]
    split <;> simp [ih]

theorem selectOnce_key_le (key : α → ℚ) (x : α) (l : List α) :
    key x ≤ key (selectOnce key x l).1 := by
  induction l generalizing x with
  | nil => exact le_refl _
  | cons y ys ih =>
    simp only [selectOnce]
    split
    · exact le_of_lt (lt_of_lt_of_le (by assumption) (ih y))
    · exact ih x

theorem selectOnce_max (key : α → ℚ) (x : α) (l : List α) :
    ∀ z ∈ (selectOnce key x l).2, key z ≤ key (selectOnce key x l).1 := by
  induction l generalizing x with
  | nil => intro z hz; simp [selectOnce] at hz
  | cons y ys ih =>
    simp only [selectOnce]
    split
    · intro z hz
      simp only [List.mem_cons] at hz
      rcases hz with rfl | hz
      · exact le_of_lt (lt_of_lt_of_le (by assumption) (selectOnce_key_le key y ys))
      · exact ih y z hz
    · intro z hz
      simp only [List.mem_cons] at hz
      rcases hz with rfl | hz
      · exact le_trans (le_of_not_lt (by assumption)) (selectOnce_key_le key x ys)
      · exact ih x z hz

theorem selectOnce_perm (key : α → ℚ) (x : α) (l : List α) :
    List.Perm ((selectOnce key x l).1 :: (selectOnce key x l).2) (x :: l) := by
  induction l generalizing x with
  | nil => exact List.Perm.refl _
  | cons y ys ih =>
    simp only [selectOnce]
    split
    · exact List.Perm.trans
        (List.Perm.swap' _ _ (List.Perm.refl _)) ((ih y).cons x)
    · exact List.Perm.trans
        (List.Perm.trans (List.Perm.swap' _ _ (List.Perm.refl _)) ((ih x).cons y))
        (List.Perm.swap x y ys)

theorem exchangeSortFuel_perm (key : α → ℚ) :
    ∀ (fuel : Nat) (l : List α), l.length ≤ fuel →
      List.Perm (exchangeSortFuel key fuel l) l := by
  intro fuel
  induction fuel with
  | zero =>
    intro l hl
    cases l with
    | nil => exact List.Perm.refl _
    | cons x xs => simp at hl
  | succ fuel ih =>
    intro l hl
    cases l with
    | nil => exact List.Perm.refl _
    | cons x xs =>
      simp only [exchangeSortFuel]
      have hlen : ((selectOnce key x xs).2).length ≤ fuel := by
        rw [selectOnce_snd_length]
        simpa using hl
      exact List.Perm.trans ((ih _ hlen).cons _) (selectOnce_perm key x xs)

theorem exchangeSortFuel_pairwise (key : α → ℚ) :
    ∀ (fuel : Nat) (l : List α), l.length ≤ fuel →
      List.Pairwise (fun a b => key b ≤ key a) (exchangeSortFuel key fuel l) := by
  intro fuel
  induction fuel with
  | zero =>
    intro l hl
    cases l with
    | nil => exact List.Pairwise.nil
    | cons x xs => simp at hl
  | succ fuel ih =>
    intro l hl
    cases l with
    | nil => exact List.Pairwise.nil
    | cons x xs =>
      simp only [exchangeSortFuel]
      have hlen : ((selectOnce key x xs).2).length ≤ fuel := by
        rw [selectOnce_snd_length]
        simpa using hl
      refine List.Pairwise.cons ?_ (ih _ hlen)
      intro b hb
      have hb' : b ∈ (selectOnce key x xs).2 :=
        (exchangeSortFuel_perm key fuel _ hlen).mem_iff.mp hb
      exact selectOnce_max key x xs b hb'

theorem exchangeSort_perm (key : α → ℚ) (l : List α) :
    List.Perm (exchangeSort key l) l :=
  exchangeSortFuel_perm key l.length l (le_refl _)

theorem exchangeSort_pairwise (key : α → ℚ) (l : List α) :
    List.Pairwise (fun a b => key b ≤ key a) (exchangeSort key l) :=
  exchangeSortFuel_pairwise key l.length l (le_refl _)

/-! ## Lemmas about the stream-consumption loop -/

theorem foldl_stepPlain_some (events : List StreamChunk) (t : Int) (buf : String) :
    (events.foldl stepPlain (some t, buf)).1 = some t := by
  induction events generalizing buf with
  | nil => rfl
  | cons c cs ih =>
    obtain ⟨ct, cch⟩ := c
    cases cch with
    | nil => exact ih buf
    | cons d ds =>
      simp only [List.foldl_cons, stepPlain]
      rw [if_neg (by simp)]
      exact ih _

theorem foldl_stepPlain_none (events : List StreamChunk) (buf : String) :
    (events.foldl stepPlain (none, buf)).1
      = (events.find? chunkHasTextPlain).map (fun c => c.time) := by
  induction events generalizing buf with
  | nil => rfl
  | cons c cs ih =>
    obtain ⟨ct, cch⟩ := c
    cases cch with
    | nil =>
      rw [List.find?_cons_of_neg _ (by simp [chunkHasTextPlain])]
      exact ih buf
    | cons d ds =>
      by_cases hpay : d.content ≠ "" ∨ d.reasoningContent ≠ ""
      · rw [List.find?_cons_of_pos _ (by simpa [chunkHasTextPlain] using hpay)]
        simp only [List.foldl_cons, stepPlain]
        rw [if_pos (by constructor <;> tauto)]
        exact foldl_stepPlain_some cs ct _
      · rw [List.find?_cons_of_neg _ (by simpa [chunkHasTextPlain] using hpay)]
        simp only [List.foldl_cons, stepPlain]
        rw [if_neg (by tauto)]
        exact ih _

theorem foldl_stepTool_some (events : List StreamChunk) (t : Int) (buf : String) :
    (events.foldl stepTool (some t, buf)).1 = some t := by
  induction events generalizing buf with
  | nil => rfl
  | cons c cs ih =>
    obtain ⟨ct, cch⟩ := c
    cases cch with
    | nil => exact ih buf
    | cons d ds =>
      simp only [List.foldl_cons, stepTool]
      rw [if_neg (by simp)]
      exact ih _

theorem foldl_stepTool_none (events : List StreamChunk) (buf : String) :
    (events.foldl stepTool (none, buf)).1
      = (events.find? chunkHasPayloadTool).map (fun c => c.time) := by
  induction events generalizing buf with
  | nil => rfl
  | cons c cs ih =>
    obtain ⟨ct, cch⟩ := c
    cases cch with
    | nil =>
      rw [List.find?_cons_of_neg _ (by simp [chunkHasPayloadTool])]
      exact ih buf
    | cons d ds =>
      by_cases hpay : d.content ≠ "" ∨ d.reasoningContent ≠ "" ∨ d.toolCalls ≠ []
      · rw [List.find?_cons_of_pos _
          (by simp [chunkHasPayloadTool, List.isEmpty_iff]; tauto)]
        simp only [List.foldl_cons, stepTool]
        rw [if_pos (by constructor <;> tauto)]
        exact foldl_stepTool_some cs ct _
      · rw [List.find?_cons_of_neg _
          (by simp [chunkHasPayloadTool, List.isEmpty_iff]; tauto)]
        simp only [List.foldl_cons, stepTool]
        rw [if_neg (by tauto)]
        exact ih _

/-! ## Lemmas about `finishStream` and the two run functions -/

theorem singleTestRun_eof (tke : String → Nat) (startTime : Int)
    (events : List StreamChunk) (endTime : Int) :
    singleTestRun tke false startTime events .eof endTime
      = finishStream tke startTime endTime
          (plainFirstTokenTime events) (plainResponse events) := rfl

theorem singleToolCallRun_eof (tke : String → Nat) (startTime : Int)
    (events : List StreamChunk) (endTime : Int) :
    singleToolCallRun tke false startTime events .eof endTime
      = finishStream tke startTime endTime
          (toolFirstTokenTime events) (toolResponse events) := rfl

theorem finishStream_error_noContent_iff (tke : String → Nat)
    (s e : Int) (ft : Option Int) (buf : String) :
    finishStream tke s e ft buf = .error .noContent ↔ ft = none := by
  cases ft with
  | none => simp [finishStream]
  | some t =>
    simp only [finishStream]
    split <;> simp

theorem finishStream_error_empty_iff (tke : String → Nat)
    (s e : Int) (ft : Option Int) (buf : String) :
    finishStream tke s e ft buf = .error .emptyCompletion
      ↔ ft.isSome ∧ tke buf = 0 := by
  cases ft with
  | none => simp [finishStream]
  | some t =>
    simp only [finishStream]
    split <;> rename_i h0 <;> simp [Option.isSome] <;> omega

theorem finishStream_ok_elim {tke : String → Nat} {s e : Int}
    {ft : Option Int} {buf : String} {m : RunMetrics}
    (h : finishStream tke s e ft buf = .ok m) :
    ∃ t, ft = some t ∧ (tke buf : Int) ≠ 0 ∧
      m = ⟨e - s, t - s,
        (if ((e - s - (t - s) : Int) : ℚ) / 1000000000 ≤ 0 then 0
         else (((tke buf : Int) : ℚ) - 1)
              / (((e - s - (t - s) : Int) : ℚ) / 1000000000)),
        (tke buf : Int), buf⟩ := by
  cases ft with
  | none => simp [finishStream] at h
  | some t =>
    simp only [finishStream] at h
    split at h
    · exact absurd h (by simp)
    · rename_i h0
      refine ⟨t, rfl, h0, ?_⟩
      injection h with h'
      exact h'.symm

theorem singleTestRun_ok_elim {tke : String → Nat} {sErr : Bool}
    {start : Int} {events : List StreamChunk} {term : StreamEnd} {endTime : Int}
    {m : RunMetrics}
    (h : singleTestRun tke sErr start events term endTime = .ok m) :
    sErr = false ∧ term = .eof ∧
      finishStream tke start endTime
        (plainFirstTokenTime events) (plainResponse events) = .ok m := by
  cases sErr with
  | true => simp [singleTestRun] at h
  | false =>
    cases term with
    | eof => exact ⟨rfl, rfl, h⟩
    | recvFailure dl => cases dl <;> simp [singleTestRun] at h

theorem singleToolCallRun_ok_elim {tke : String → Nat} {sErr : Bool}
    {start : Int} {events : List StreamChunk} {term : StreamEnd} {endTime : Int}
    {m : RunMetrics}
    (h : singleToolCallRun tke sErr start events term endTime = .ok m) :
    sErr = false ∧ term = .eof ∧
      finishStream tke start endTime
        (toolFirstTokenTime events) (toolResponse events) = .ok m := by
  cases sErr with
  | true => simp [singleToolCallRun] at h
  | false =>
    cases term with
    | eof => exact ⟨rfl, rfl, h⟩
    | recvFailure dl => cases dl <;> simp [singleToolCallRun] at h

theorem finishStream_ok_throughput {tke : String → Nat} {s e : Int}
    {ft : Option Int} {buf : String} {m : RunMetrics}
    (h : finishStream tke s e ft buf = .ok m) :
    m.throughput = specThroughput m.e2e m.ttft m.tokens ∧
      0 ≤ m.throughput ∧ (m.tokens ≤ 1 → m.throughput = 0) ∧ 1 ≤ m.tokens := by
  obtain ⟨t, hft, h0, rfl⟩ := finishStream_ok_elim h
  have htok : 1 ≤ (tke buf : Int) := by
    have hnn : 0 ≤ (tke buf : Int) := Int.natCast_nonneg _
    omega
  have hcond : ∀ g : Int, ((g : ℚ) / 1000000000 ≤ 0) ↔ g ≤ 0 := by
    intro g
    rw [div_le_iff₀ (by norm_num : (0:ℚ) < 1000000000)]
    simp
  dsimp only
  refine ⟨?_, ?_, ?_, htok⟩
  · simp only [specThroughput]
    by_cases hg : 0 < e - s - (t - s)
    · rw [if_pos hg, if_neg (by rw [hcond]; omega)]
    · rw [if_neg hg, if_pos ((hcond _).mpr (by omega))]
  · by_cases hle : ((e - s - (t - s) : Int) : ℚ) / 1000000000 ≤ 0
    · rw [if_pos hle]
    · rw [if_neg hle]
      apply div_nonneg
      · have : (1 : ℚ) ≤ ((tke buf : Int) : ℚ) := by exact_mod_cast htok
        linarith
      · exact le_of_lt (lt_of_not_le hle)
  · intro hle1
    have : (tke buf : Int) = 1 := le_antisymm hle1 htok
    rw [this]
    by_cases hle : ((e - s - (t - s) : Int) : ℚ) / 1000000000 ≤ 0
    · rw [if_pos hle]
    · rw [if_neg hle]
      norm_num

/-- C1: for every successful run (in either plain-completion or
tool-invocation mode), the throughput equals `(completionTokens - 1)`
divided by the generation interval (end-to-end minus TTFT) in seconds
when that interval is positive and is exactly `0` otherwise; hence it is
always non-negative and is exactly `0` whenever `completionTokens ≤ 1`
(successful runs always have `completionTokens ≥ 1`). -/
theorem C1_throughput (tke : String → Nat) (sErr : Bool) (start : Int)
    (events : List StreamChunk) (term : StreamEnd) (endTime : Int)
    (m : RunMetrics)
    (h : singleTestRun tke sErr start events term endTime = .ok m ∨
         singleToolCallRun tke sErr start events term endTime = .ok m) :
    m.throughput = specThroughput m.e2e m.ttft m.tokens ∧
      0 ≤ m.throughput ∧ (m.tokens ≤ 1 → m.throughput = 0) ∧ 1 ≤ m.tokens := by
  rcases h with h | h
  · exact finishStream_ok_throughput (singleTestRun_ok_elim h).2.2
  · exact finishStream_ok_throughput (singleToolCallRun_ok_elim h).2.2

/-- Closed instance of C1: a two-token single-chunk plain stream,
tokenizer = string length, start 0ns, first token at 5ns, end at 10ns. -/
theorem C1_throughput_witness :
    (singleTestRun (fun s => s.length) false 0 [⟨5, [⟨"hi", "", []⟩]⟩] .eof 10
        = .ok ⟨10, 5, 200000000, 2, "hi"⟩) ∧
      ((200000000 : ℚ) = specThroughput 10 5 2 ∧
        (0:ℚ) ≤ 200000000 ∧ ((2:Int) ≤ 1 → (200000000 : ℚ) = 0) ∧ (1:Int) ≤ 2) := by
  have hrun : singleTestRun (fun s => s.length) false 0
      [⟨5, [⟨"hi", "", []⟩]⟩] .eof 10 = .ok ⟨10, 5, 200000000, 2, "hi"⟩ := by
    simp [singleTestRun, stepPlain, finishStream, show "hi".length = 2 from rfl]
    norm_num
  exact ⟨hrun,
    C1_throughput (fun s => s.length) false 0 [⟨5, [⟨"hi", "", []⟩]⟩] .eof 10
      ⟨10, 5, 200000000, 2, "hi"⟩ (Or.inl hrun)⟩

theorem plainFirstTokenTime_eq (events : List StreamChunk) :
    plainFirstTokenTime events
      = (events.find? chunkHasTextPlain).map (fun c => c.time) :=
  foldl_stepPlain_none events ""

theorem toolFirstTokenTime_eq (events : List StreamChunk) :
    toolFirstTokenTime events
      = (events.find? chunkHasPayloadTool).map (fun c => c.time) :=
  foldl_stepTool_none events ""

/-- C9: on every successful run (either mode), TTFT is at most the
end-to-end latency, provided every chunk is processed no later than the
end timestamp is taken (the first-token timestamp is captured during
stream consumption, before `endTime`). -/
theorem C9_ttft_le_e2e (tke : String → Nat) (sErr : Bool) (start : Int)
    (events : List StreamChunk) (term : StreamEnd) (endTime : Int)
    (m : RunMetrics)
    (hmono : ∀ c ∈ events, c.time ≤ endTime)
    (h : singleTestRun tke sErr start events term endTime = .ok m ∨
         singleToolCallRun tke sErr start events term endTime = .ok m) :
    m.ttft ≤ m.e2e := by
  rcases h with h | h
  · obtain ⟨-, -, hf⟩ := singleTestRun_ok_elim h
    obtain ⟨t, hft, -, rfl⟩ := finishStream_ok_elim hf
    rw [plainFirstTokenTime_eq] at hft
    obtain ⟨c0, hc0, hct⟩ := Option.map_eq_some'.mp hft
    have hmem : c0 ∈ events := List.mem_of_find?_eq_some hc0
    have hle := hmono c0 hmem
    dsimp only at hct ⊢
    omega
  · obtain ⟨-, -, hf⟩ := singleToolCallRun_ok_elim h
    obtain ⟨t, hft, -, rfl⟩ := finishStream_ok_elim hf
    rw [toolFirstTokenTime_eq] at hft
    obtain ⟨c0, hc0, hct⟩ := Option.map_eq_some'.mp hft
    have hmem : c0 ∈ events := List.mem_of_find?_eq_some hc0
    have hle := hmono c0 hmem
    dsimp only at hct ⊢
    omega

/-- Closed instance of C9: on the concrete successful run of
`C1_throughput_witness`, ttft 5 ≤ e2e 10. -/
theorem C9_ttft_le_e2e_witness :
    (∀ c ∈ [(⟨5, [⟨"hi", "", []⟩]⟩ : StreamChunk)], c.time ≤ 10) ∧
      (5 : Int) ≤ 10 := by
  refine ⟨by decide, ?_⟩
  have hrun : singleTestRun (fun s => s.length) false 0
      [⟨5, [⟨"hi", "", []⟩]⟩] .eof 10 = .ok ⟨10, 5, 200000000, 2, "hi"⟩ := by
    simp [singleTestRun, stepPlain, finishStream, show "hi".length = 2 from rfl]
    norm_num
  exact C9_ttft_le_e2e (fun s => s.length) false 0 [⟨5, [⟨"hi", "", []⟩]⟩] .eof 10
    ⟨10, 5, 200000000, 2, "hi"⟩ (by decide) (Or.inl hrun)

/-- C6: for runs whose stream reaches end-of-stream, `noContent` is
returned iff no received chunk ever carried a payload (non-empty
content/reasoning text, plus tool-call fragments in tool mode), and
`emptyCompletion` is returned iff a first token did occur but the
tokenizer counts 0 on the accumulated text; the two conditions are
mutually exclusive. -/
theorem C6_error_classification (tke : String → Nat) (start : Int)
    (events : List StreamChunk) (endTime : Int) :
    (singleTestRun tke false start events .eof endTime = .error .noContent
        ↔ ¬ ∃ c ∈ events, chunkHasTextPlain c) ∧
    (singleTestRun tke false start events .eof endTime = .error .emptyCompletion
        ↔ (∃ c ∈ events, chunkHasTextPlain c) ∧ tke (plainResponse events) = 0) ∧
    (singleToolCallRun tke false start events .eof endTime = .error .noContent
        ↔ ¬ ∃ c ∈ events, chunkHasPayloadTool c) ∧
    (singleToolCallRun tke false start events .eof endTime = .error .emptyCompletion
        ↔ (∃ c ∈ events, chunkHasPayloadTool c) ∧ tke (toolResponse events) = 0) ∧
    ¬ ((¬ ∃ c ∈ events, chunkHasTextPlain c) ∧
        (∃ c ∈ events, chunkHasTextPlain c) ∧ tke (plainResponse events) = 0) := by
  refine ⟨?_, ?_, ?_, ?_, ?_⟩
  · rw [singleTestRun_eof, finishStream_error_noContent_iff,
      plainFirstTokenTime_eq]
    simp
  · rw [singleTestRun_eof, finishStream_error_empty_iff,
      plainFirstTokenTime_eq]
    simp
  · rw [singleToolCallRun_eof, finishStream_error_noContent_iff,
      toolFirstTokenTime_eq]
    simp
  · rw [singleToolCallRun_eof, finishStream_error_empty_iff,
      toolFirstTokenTime_eq]
    simp
  · rintro ⟨hno, hex, -⟩
    exact hno hex

theorem find?_eq_of_agree {p q : α → Bool} :
    ∀ l : List α, (∀ x ∈ l, p x = q x) → l.find? p = l.find? q := by
  intro l
  induction l with
  | nil => intro _; rfl
  | cons x xs ih =>
    intro hagree
    have hx := hagree x (List.mem_cons_self x xs)
    by_cases hp : p x
    · rw [List.find?_cons_of_pos _ hp, List.find?_cons_of_pos _ (hx ▸ hp)]
    · rw [List.find?_cons_of_neg _ hp, List.find?_cons_of_neg _ (by
        simpa [← hx] using hp)]
      exact ih fun y hy => hagree y (List.mem_cons_of_mem x hy)

/-- C7: in tool-invocation mode, a stream carrying only tool-call
fragments (every delta's content and reasoning text empty, at least one
chunk with a tool-call fragment) still sets the one-shot first-token
timestamp — to the time of the first tool-call-bearing chunk — and the
run does not fail with the no-content error. -/
theorem C7_tool_only_stream (tke : String → Nat) (start : Int)
    (events : List StreamChunk) (endTime : Int)
    (honly : ∀ c ∈ events, ∀ d ∈ c.choices,
      d.content = "" ∧ d.reasoningContent = "")
    (htool : ∃ c ∈ events, chunkHasToolCall c) :
    toolFirstTokenTime events
        = (events.find? chunkHasToolCall).map (fun c => c.time) ∧
      (toolFirstTokenTime events).isSome ∧
      singleToolCallRun tke false start events .eof endTime
        ≠ .error .noContent := by
  have hagree : ∀ c ∈ events, chunkHasPayloadTool c = chunkHasToolCall c := by
    intro c hc
    obtain ⟨t, ch⟩ := c
    cases ch with
    | nil => rfl
    | cons d ds =>
      have hd := honly _ hc d (List.mem_cons_self _ _)
      simp [chunkHasPayloadTool, chunkHasToolCall, hd.1, hd.2]
  have heq : toolFirstTokenTime events
      = (events.find? chunkHasToolCall).map (fun c => c.time) := by
    rw [toolFirstTokenTime_eq, find?_eq_of_agree events hagree]
  have hsome : (toolFirstTokenTime events).isSome := by
    rw [heq, Option.isSome_map']
    exact List.find?_isSome.mpr htool
  refine ⟨heq, hsome, ?_⟩
  rw [Ne, singleToolCallRun_eof, finishStream_error_noContent_iff]
  exact Option.isSome_iff_ne_none.mp hsome

/-- Closed instance of C7: a two-chunk stream whose only payload is one
tool-call fragment at time 7ns. -/
theorem C7_tool_only_stream_witness :
    (∀ c ∈ [(⟨3, []⟩ : StreamChunk), ⟨7, [⟨"", "", [⟨"f", "x"⟩]⟩]⟩],
        ∀ d ∈ c.choices, d.content = "" ∧ d.reasoningContent = "") ∧
      (∃ c ∈ [(⟨3, []⟩ : StreamChunk), ⟨7, [⟨"", "", [⟨"f", "x"⟩]⟩]⟩],
        chunkHasToolCall c) ∧
      toolFirstTokenTime [⟨3, []⟩, ⟨7, [⟨"", "", [⟨"f", "x"⟩]⟩]⟩] = some 7 ∧
      singleToolCallRun (fun s => s.length) false 0
          [⟨3, []⟩, ⟨7, [⟨"", "", [⟨"f", "x"⟩]⟩]⟩] .eof 10
        ≠ .error .noContent := by
  have h := C7_tool_only_stream (fun s => s.length) 0
    [⟨3, []⟩, ⟨7, [⟨"", "", [⟨"f", "x"⟩]⟩]⟩] 10 (by decide) (by decide)
  refine ⟨by decide, by decide, ?_, h.2.2⟩
  rw [h.1]
  decide

/-! ## Lemmas about the iteration collection loop -/

theorem foldl_iterStep_e2eSum (l : List RunOutcome) :
    ∀ acc : IterAcc, (l.foldl iterStep acc).e2eSum = acc.e2eSum + sumE2E l := by
  induction l with
  | nil => intro acc; simp [sumE2E, successRuns]
  | cons r rs ih =>
    intro acc
    cases hr : r.err with
    | none =>
      simp only [List.foldl_cons, iterStep, hr]
      rw [ih]
      simp [sumE2E, successRuns, List.filter_cons, hr]
      ring
    | some e =>
      simp only [List.foldl_cons, iterStep, hr]
      split <;> rw [ih] <;> simp [sumE2E, successRuns, List.filter_cons, hr]

theorem foldl_iterStep_ttftSum (l : List RunOutcome) :
    ∀ acc : IterAcc, (l.foldl iterStep acc).ttftSum = acc.ttftSum + sumTTFT l := by
  induction l with
  | nil => intro acc; simp [sumTTFT, successRuns]
  | cons r rs ih =>
    intro acc
    cases hr : r.err with
    | none =>
      simp only [List.foldl_cons, iterStep, hr]
      rw [ih]
      simp [sumTTFT, successRuns, List.filter_cons, hr]
      ring
    | some e =>
      simp only [List.foldl_cons, iterStep, hr]
      split <;> rw [ih] <;> simp [sumTTFT, successRuns, List.filter_cons, hr]

theorem foldl_iterStep_throughputSum (l : List RunOutcome) :
    ∀ acc : IterAcc,
      (l.foldl iterStep acc).throughputSum
        = acc.throughputSum + sumThroughput l := by
  induction l with
  | nil => intro acc; simp [sumThroughput, successRuns]
  | cons r rs ih =>
    intro acc
    cases hr : r.err with
    | none =>
      simp only [List.foldl_cons, iterStep, hr]
      rw [ih]
      simp [sumThroughput, successRuns, List.filter_cons, hr]
      ring
    | some e =>
      simp only [List.foldl_cons, iterStep, hr]
      split <;> rw [ih] <;> simp [sumThroughput, successRuns, List.filter_cons, hr]

theorem foldl_iterStep_tokensSum (l : List RunOutcome) :
    ∀ acc : IterAcc, (l.foldl iterStep acc).tokensSum = acc.tokensSum + sumTokens l := by
  induction l with
  | nil => intro acc; simp [sumTokens, successRuns]
  | cons r rs ih =>
    intro acc
    cases hr : r.err with
    | none =>
      simp only [List.foldl_cons, iterStep, hr]
      rw [ih]
      simp [sumTokens, successRuns, List.filter_cons, hr]
      ring
    | some e =>
      simp only [List.foldl_cons, iterStep, hr]
      split <;> rw [ih] <;> simp [sumTokens, successRuns, List.filter_cons, hr]

theorem foldl_iterStep_successfulRuns (l : List RunOutcome) :
    ∀ acc : IterAcc,
      (l.foldl iterStep acc).successfulRuns
        = acc.successfulRuns + (successRuns l).length := by
  induction l with
  | nil => intro acc; simp [successRuns]
  | cons r rs ih =>
    intro acc
    cases hr : r.err with
    | none =>
      simp only [List.foldl_cons, iterStep, hr]
      rw [ih]
      simp [successRuns, List.filter_cons, hr]
      omega
    | some e =>
      simp only [List.foldl_cons, iterStep, hr]
      split <;> rw [ih] <;> simp [successRuns, List.filter_cons, hr]

theorem foldl_iterStep_firstError (l : List RunOutcome) :
    ∀ acc : IterAcc,
      (l.foldl iterStep acc).firstError
        = if acc.firstError = none then firstErrorOf l else acc.firstError := by
  induction l with
  | nil =>
    intro acc
    simp only [List.foldl_cons, firstErrorOf, List.filterMap_nil, List.head?_nil]
    split <;> simp_all
  | cons r rs ih =>
    intro acc
    cases hr : r.err with
    | none =>
      simp only [List.foldl_cons, iterStep, hr]
      rw [ih]
      simp [firstErrorOf, List.filterMap_cons, hr]
    | some e =>
      simp only [List.foldl_cons, iterStep, hr]
      by_cases hacc : acc.firstError = none
      · rw [if_pos hacc, ih]
        simp [firstErrorOf, List.filterMap_cons, hr, hacc]
      · rw [if_neg hacc, ih, if_neg hacc, if_neg hacc]

theorem aggregateTestResult_eq (l : List RunOutcome) :
    aggregateTestResult l =
      if (successRuns l).length = 0 then
        ⟨0, 0, 0, 0, false, firstErrorOf l⟩
      else
        ⟨Int.tdiv (sumE2E l) ((successRuns l).length : Int),
         Int.tdiv (sumTTFT l) ((successRuns l).length : Int),
         sumThroughput l / ((successRuns l).length : ℚ),
         Int.tdiv (sumTokens l) ((successRuns l).length : Int),
         true, none⟩ := by
  simp only [aggregateTestResult, iterCollect]
  rw [foldl_iterStep_e2eSum, foldl_iterStep_ttftSum, foldl_iterStep_throughputSum,
    foldl_iterStep_tokensSum, foldl_iterStep_successfulRuns, foldl_iterStep_firstError]
  simp

/-- C3: the averaged record divides each accumulated sum by the number
of successful repetitions only; when zero repetitions succeed the
result is the error-only record carrying the first collected failure's
error text, which is guaranteed to exist for a non-empty batch. -/
theorem C3_iteration_averaging (l : List RunOutcome) :
    (aggregateTestResult l =
      if (successRuns l).length = 0 then
        ⟨0, 0, 0, 0, false, firstErrorOf l⟩
      else
        ⟨Int.tdiv (sumE2E l) ((successRuns l).length : Int),
         Int.tdiv (sumTTFT l) ((successRuns l).length : Int),
         sumThroughput l / ((successRuns l).length : ℚ),
         Int.tdiv (sumTokens l) ((successRuns l).length : Int),
         true, none⟩) ∧
    (l ≠ [] → (successRuns l).length = 0 → (firstErrorOf l).isSome) := by
  refine ⟨aggregateTestResult_eq l, ?_⟩
  intro hne hz
  cases l with
  | nil => exact absurd rfl hne
  | cons r rs =>
    cases hr : r.err with
    | none =>
      exfalso
      simp [successRuns, List.filter_cons, hr] at hz
    | some e =>
      simp [firstErrorOf, List.filterMap_cons, hr]

/-- Closed instance of C3: a one-element batch whose single repetition
failed yields the error-only record with that failure's message. -/
theorem C3_iteration_averaging_witness :
    ([(⟨0, 0, 0, 0, some "boom"⟩ : RunOutcome)] ≠ []) ∧
      (successRuns [(⟨0, 0, 0, 0, some "boom"⟩ : RunOutcome)]).length = 0 ∧
      (firstErrorOf [(⟨0, 0, 0, 0, some "boom"⟩ : RunOutcome)]).isSome ∧
      aggregateTestResult [(⟨0, 0, 0, 0, some "boom"⟩ : RunOutcome)]
        = ⟨0, 0, 0, 0, false, some "boom"⟩ :=
  ⟨by decide, by decide,
    (C3_iteration_averaging [⟨0, 0, 0, 0, some "boom"⟩]).2 (by decide) (by decide),
    by decide⟩

/-! ## Lemmas about the diagnostic collection loop -/

theorem foldl_diagStep_successCount (l : List RunOutcome) :
    ∀ acc : DiagAcc,
      (l.foldl diagStep acc).successCount
        = acc.successCount + (successRuns l).length := by
  induction l with
  | nil => intro acc; simp [successRuns]
  | cons r rs ih =>
    intro acc
    cases hr : r.err with
    | none =>
      simp only [List.foldl_cons, diagStep, hr]
      rw [ih]
      simp [successRuns, List.filter_cons, hr]
      omega
    | some e =>
      simp only [List.foldl_cons, diagStep, hr]
      rw [ih]
      simp [successRuns, List.filter_cons, hr]

theorem foldl_diagStep_failureCount (l : List RunOutcome) :
    ∀ acc : DiagAcc,
      (l.foldl diagStep acc).failureCount
        = acc.failureCount + (l.filter (fun r => r.err ≠ none)).length := by
  induction l with
  | nil => intro acc; simp
  | cons r rs ih =>
    intro acc
    cases hr : r.err with
    | none =>
      simp only [List.foldl_cons, diagStep, hr]
      rw [ih]
      simp [List.filter_cons, hr]
    | some e =>
      simp only [List.foldl_cons, diagStep, hr]
      rw [ih]
      simp [List.filter_cons, hr]
      omega

theorem foldl_diagStep_totalE2E (l : List RunOutcome) :
    ∀ acc : DiagAcc, (l.foldl diagStep acc).totalE2E = acc.totalE2E + sumE2E l := by
  induction l with
  | nil => intro acc; simp [sumE2E, successRuns]
  | cons r rs ih =>
    intro acc
    cases hr : r.err with
    | none =>
      simp only [List.foldl_cons, diagStep, hr]
      rw [ih]
      simp [sumE2E, successRuns, List.filter_cons, hr]
      ring
    | some e =>
      simp only [List.foldl_cons, diagStep, hr]
      rw [ih]
      simp [sumE2E, successRuns, List.filter_cons, hr]

theorem foldl_diagStep_totalTTFT (l : List RunOutcome) :
    ∀ acc : DiagAcc, (l.foldl diagStep acc).totalTTFT = acc.totalTTFT + sumTTFT l := by
  induction l with
  | nil => intro acc; simp [sumTTFT, successRuns]
  | cons r rs ih =>
    intro acc
    cases hr : r.err with
    | none =>
      simp only [List.foldl_cons, diagStep, hr]
      rw [ih]
      simp [sumTTFT, successRuns, List.filter_cons, hr]
      ring
    | some e =>
      simp only [List.foldl_cons, diagStep, hr]
      rw [ih]
      simp [sumTTFT, successRuns, List.filter_cons, hr]

theorem foldl_diagStep_totalThroughput (l : List RunOutcome) :
    ∀ acc : DiagAcc,
      (l.foldl diagStep acc).totalThroughput
        = acc.totalThroughput + sumThroughput l := by
  induction l with
  | nil => intro acc; simp [sumThroughput, successRuns]
  | cons r rs ih =>
    intro acc
    cases hr : r.err with
    | none =>
      simp only [List.foldl_cons, diagStep, hr]
      rw [ih]
      simp [sumThroughput, successRuns, List.filter_cons, hr]
      ring
    | some e =>
      simp only [List.foldl_cons, diagStep, hr]
      rw [ih]
      simp [sumThroughput, successRuns, List.filter_cons, hr]

theorem foldl_diagStep_totalTokens (l : List RunOutcome) :
    ∀ acc : DiagAcc,
      (l.foldl diagStep acc).totalTokens = acc.totalTokens + sumTokens l := by
  induction l with
  | nil => intro acc; simp [sumTokens, successRuns]
  | cons r rs ih =>
    intro acc
    cases hr : r.err with
    | none =>
      simp only [List.foldl_cons, diagStep, hr]
      rw [ih]
      simp [sumTokens, successRuns, List.filter_cons, hr]
      ring
    | some e =>
      simp only [List.foldl_cons, diagStep, hr]
      rw [ih]
      simp [sumTokens, successRuns, List.filter_cons, hr]

theorem foldl_diagStep_errCounts (l : List RunOutcome) (msg : String) :
    ∀ acc : DiagAcc,
      (l.foldl diagStep acc).errCounts msg
        = acc.errCounts msg + (l.filter (fun r => r.err = some msg)).length := by
  induction l with
  | nil => intro acc; simp
  | cons r rs ih =>
    intro acc
    cases hr : r.err with
    | none =>
      simp only [List.foldl_cons, diagStep, hr]
      rw [ih]
      simp [List.filter_cons, hr]
    | some e =>
      simp only [List.foldl_cons, diagStep, hr]
      rw [ih]
      by_cases hmsg : e = msg
      · subst hmsg
        simp [List.filter_cons, hr]
        omega
      · simp [List.filter_cons, hr, hmsg, Ne.symm hmsg]

/-- C8: in the diagnostic summary, the error mapping assigns to each
error-message string exactly the number of failed requests carrying that
exact message, and the averaged timing fields are populated (sum over
successes divided by success count) only when at least one request
succeeded, remaining zero otherwise while the error breakdown is kept. -/
theorem C8_diagnostic_summary (l : List RunOutcome) (msg : String) :
    (diagnosticSummary l).errCounts msg
        = (l.filter (fun r => r.err = some msg)).length ∧
      (diagnosticSummary l).successful = (successRuns l).length ∧
      (diagnosticSummary l).failed = (l.filter (fun r => r.err ≠ none)).length ∧
      (diagnosticSummary l).totalRequests
        = (successRuns l).length + (l.filter (fun r => r.err ≠ none)).length ∧
      (diagnosticSummary l).avgE2ELatency
        = (if 0 < (successRuns l).length then
            Int.tdiv (sumE2E l) ((successRuns l).length : Int) else 0) ∧
      (diagnosticSummary l).avgTTFT
        = (if 0 < (successRuns l).length then
            Int.tdiv (sumTTFT l) ((successRuns l).length : Int) else 0) ∧
      (diagnosticSummary l).avgThroughput
        = (if 0 < (successRuns l).length then
            sumThroughput l / ((successRuns l).length : ℚ) else 0) ∧
      (diagnosticSummary l).avgTokens
        = (if 0 < (successRuns l).length then
            Int.tdiv (sumTokens l) ((successRuns l).length : Int) else 0) := by
  simp only [diagnosticSummary, diagCollect]
  rw [foldl_diagStep_successCount, foldl_diagStep_failureCount,
    foldl_diagStep_totalE2E, foldl_diagStep_totalTTFT,
    foldl_diagStep_totalThroughput, foldl_diagStep_totalTokens]
  by_cases hpos : 0 < (successRuns l).length <;>
    simp [hpos, foldl_diagStep_errCounts]

/-- C10: with at least one success (and the run-level guarantee that
successful outcomes carry non-negative token counts), both aggregates
report the token average as the truncating integer quotient of the token
sum by the success count, and when the sum is not divisible the report
understates the exact mean by a fraction strictly below 1. -/
theorem C10_truncated_token_average (l : List RunOutcome)
    (h1 : 0 < (successRuns l).length)
    (h2 : ∀ r ∈ l, r.err = none → 0 ≤ r.tokens) :
    (aggregateTestResult l).completionTokens
        = Int.tdiv (sumTokens l) ((successRuns l).length : Int) ∧
      (diagnosticSummary l).avgTokens
        = Int.tdiv (sumTokens l) ((successRuns l).length : Int) ∧
      (¬ (((successRuns l).length : Int) ∣ sumTokens l) →
        (((aggregateTestResult l).completionTokens : ℚ)
            < (sumTokens l : ℚ) / ((successRuns l).length : ℚ) ∧
          (sumTokens l : ℚ) / ((successRuns l).length : ℚ)
            - ((aggregateTestResult l).completionTokens : ℚ) < 1)) := by
  have hs : 0 ≤ sumTokens l := by
    apply List.sum_nonneg
    intro x hx
    obtain ⟨r, hr, rfl⟩ := List.mem_map.mp hx
    have := List.mem_filter.mp hr
    exact h2 r this.1 (by simpa using this.2)
  have hiter : (aggregateTestResult l).completionTokens
      = Int.tdiv (sumTokens l) ((successRuns l).length : Int) := by
    rw [aggregateTestResult_eq, if_neg (by omega)]
  have hdiag : (diagnosticSummary l).avgTokens
      = Int.tdiv (sumTokens l) ((successRuns l).length : Int) := by
    simp only [diagnosticSummary, diagCollect]
    rw [foldl_diagStep_successCount, foldl_diagStep_totalTokens]
    simp [h1]
  refine ⟨hiter, hdiag, ?_⟩
  intro hndvd
  set n : Int := ((successRuns l).length : Int) with hn
  set s : Int := sumTokens l with hsdef
  have hn0 : 0 < n := by positivity
  have htdiv : Int.tdiv s n = s / n := Int.tdiv_eq_ediv hs (le_of_lt hn0)
  have hmod : n * (s / n) + s % n = s := Int.ediv_add_emod s n
  have hr0 : 0 ≤ s % n := Int.emod_nonneg s (by omega)
  have hrn : s % n < n := Int.emod_lt_of_pos s hn0
  have hrne : s % n ≠ 0 := fun h => hndvd (Int.dvd_iff_emod_eq_zero.mpr h)
  have hnq : (0:ℚ) < (n : ℚ) := by exact_mod_cast hn0
  have hmod' : (s / n) * n + s % n = s := by linarith [hmod]
  have hsplit : (s : ℚ) / (n : ℚ) = ((s / n : Int) : ℚ) + ((s % n : Int) : ℚ) / (n : ℚ) := by
    rw [div_eq_iff (ne_of_gt hnq), add_mul, div_mul_cancel₀ _ (ne_of_gt hnq)]
    exact_mod_cast hmod'.symm
  have hcast : ((successRuns l).length : ℚ) = ((n : Int) : ℚ) := by
    rw [hn]
    push_cast
    ring
  rw [hiter, htdiv, hcast, hsplit]
  have hfrac0 : (0:ℚ) < ((s % n : Int) : ℚ) / (n : ℚ) := by
    apply div_pos _ hnq
    have : 0 < s % n := lt_of_le_of_ne hr0 (Ne.symm hrne)
    exact_mod_cast this
  have hfrac1 : ((s % n : Int) : ℚ) / (n : ℚ) < 1 := by
    rw [div_lt_one hnq]
    exact_mod_cast hrn
  constructor
  · linarith
  · linarith

/-- Closed instance of C10: two successes with 3 and 4 tokens give the
truncated average 3, strictly below the exact mean 7/2 and within 1. -/
theorem C10_truncated_token_average_witness :
    (0 < (successRuns [(⟨1, 1, 1, 3, none⟩ : RunOutcome), ⟨1, 1, 1, 4, none⟩]).length) ∧
      (∀ r ∈ [(⟨1, 1, 1, 3, none⟩ : RunOutcome), ⟨1, 1, 1, 4, none⟩],
        r.err = none → 0 ≤ r.tokens) ∧
      (aggregateTestResult [(⟨1, 1, 1, 3, none⟩ : RunOutcome), ⟨1, 1, 1, 4, none⟩]).completionTokens = 3 ∧
      ¬ (((successRuns [(⟨1, 1, 1, 3, none⟩ : RunOutcome), ⟨1, 1, 1, 4, none⟩]).length : Int)
          ∣ sumTokens [(⟨1, 1, 1, 3, none⟩ : RunOutcome), ⟨1, 1, 1, 4, none⟩]) ∧
      ((3 : ℚ) < (sumTokens [(⟨1, 1, 1, 3, none⟩ : RunOutcome), ⟨1, 1, 1, 4, none⟩] : ℚ)
          / ((successRuns [(⟨1, 1, 1, 3, none⟩ : RunOutcome), ⟨1, 1, 1, 4, none⟩]).length : ℚ)) := by
  have h := C10_truncated_token_average
    [⟨1, 1, 1, 3, none⟩, ⟨1, 1, 1, 4, none⟩] (by decide) (by decide)
  have hdvd : ¬ (((successRuns [(⟨1, 1, 1, 3, none⟩ : RunOutcome), ⟨1, 1, 1, 4, none⟩]).length : Int)
      ∣ sumTokens [(⟨1, 1, 1, 3, none⟩ : RunOutcome), ⟨1, 1, 1, 4, none⟩]) := by decide
  refine ⟨by decide, by decide, by decide, hdvd, ?_⟩
  have := (h.2.2 hdvd).1
  rwa [h.1, show Int.tdiv (sumTokens [(⟨1, 1, 1, 3, none⟩ : RunOutcome), ⟨1, 1, 1, 4, none⟩])
      ((successRuns [(⟨1, 1, 1, 3, none⟩ : RunOutcome), ⟨1, 1, 1, 4, none⟩]).length : Int) = 3
    from by decide, show ((3 : Int) : ℚ) = (3 : ℚ) from by norm_num] at this

/-- C4: a diagnostic worker stops at a tick exactly when the remaining
session time is below the 30-second timeout plus the 5-second grace
margin (35 seconds), and a worker starting at t = 0 whose requests
complete before each tick issues exactly 4 requests, at 0s, 15s, 30s
and 45s. -/
theorem C4_worker_schedule :
    (∀ elapsed : Int, workerStopsAtTick elapsed = true
        ↔ sessionDurationNs - elapsed < 35 * 1000000000) ∧
      diagWorkerSchedule = [0, 15000000000, 30000000000, 45000000000] ∧
      diagWorkerSchedule.length = 4 := by
  refine ⟨?_, by decide, by decide⟩
  intro elapsed
  simp [workerStopsAtTick, sessionDurationNs, requestTimeoutNs, gracePeriodNs]

/-- C5: mixed mode expands one provider invocation to 3 plain-completion
and 3 tool-invocation repetitions — 6 runs numbered 1..6 under one
5-minute deadline — and whatever each repetition returns (success or
failure), the batch handed to the aggregator contains exactly one
outcome per repetition, so no failure aborts the others. -/
theorem C5_mixed_expansion :
    (plannedRuns .mixed).length = 6 ∧
      ((plannedRuns .mixed).filter (fun p => p.2 = TestMode.streaming)).length = 3 ∧
      ((plannedRuns .mixed).filter (fun p => p.2 = TestMode.toolCalling)).length = 3 ∧
      (plannedRuns .mixed).map Prod.fst = [1, 2, 3, 4, 5, 6] ∧
      batchTimeoutNs = 300 * 1000000000 ∧
      (∀ runner : Nat → TestMode → RunOutcome,
        runBatch .mixed runner
          = [runner 1 .streaming, runner 2 .streaming, runner 3 .streaming,
             runner 4 .toolCalling, runner 5 .toolCalling, runner 6 .toolCalling]) ∧
      (∀ runner : Nat → TestMode → RunOutcome,
        (runBatch .mixed runner).length = 6) := by
  refine ⟨by decide, by decide, by decide, by decide, by decide, ?_, ?_⟩
  · intro runner
    rfl
  · intro runner
    rfl

/-- C2 is falsified as stated: the report's exchange sort is not stable.
With equal-throughput records a (input first) and b, and a higher
record c, the throughput leaderboard returns c, b, a — records a and b
have equal keys yet their input order is reversed. -/
theorem C2_counterexample :
    leaderboardByThroughput
        [⟨"a", 30, 3, 5, true⟩, ⟨"b", 20, 2, 5, true⟩, ⟨"c", 10, 1, 7, true⟩]
      = [⟨"c", 10, 1, 7, true⟩, ⟨"b", 20, 2, 5, true⟩, ⟨"a", 30, 3, 5, true⟩] ∧
      (⟨"a", 30, 3, 5, true⟩ : ReportResult).throughput
        = (⟨"b", 20, 2, 5, true⟩ : ReportResult).throughput ∧
      (⟨"a", 30, 3, 5, true⟩ : ReportResult) ≠ ⟨"b", 20, 2, 5, true⟩ := by
  refine ⟨by decide, by decide, by decide⟩

/-- C2 (amended): each leaderboard view is sorted consistently with its
declared key — throughput non-increasing, TTFT non-decreasing,
end-to-end latency non-decreasing — and each view is a permutation of
the successful records; but the exchange sort is not stable, so records
whose keys compare equal need not retain their original relative
order. -/
theorem C2_leaderboard_sorted (results : List ReportResult) :
    List.Pairwise (fun a b => b.throughput ≤ a.throughput)
        (leaderboardByThroughput results) ∧
      List.Pairwise (fun a b => a.ttft ≤ b.ttft) (leaderboardByTTFT results) ∧
      List.Pairwise (fun a b => a.e2eLatency ≤ b.e2eLatency)
        (leaderboardByE2E results) ∧
      List.Perm (leaderboardByThroughput results) (successfulResults results) ∧
      List.Perm (leaderboardByTTFT results) (successfulResults results) ∧
      List.Perm (leaderboardByE2E results) (successfulResults results) := by
  have hperm1 : List.Perm (leaderboardByThroughput results) (successfulResults results) :=
    exchangeSort_perm _ _
  have hperm2 : List.Perm (leaderboardByTTFT results) (successfulResults results) :=
    List.Perm.trans (exchangeSort_perm _ _) hperm1
  have hperm3 : List.Perm (leaderboardByE2E results) (successfulResults results) :=
    List.Perm.trans (exchangeSort_perm _ _) hperm2
  refine ⟨?_, ?_, ?_, hperm1, hperm2, hperm3⟩
  · exact exchangeSort_pairwise (fun r => r.throughput) (successfulResults results)
  · refine (exchangeSort_pairwise (fun r => -(r.ttft : ℚ))
      (leaderboardByThroughput results)).imp ?_
    intro a b h
    have : (a.ttft : ℚ) ≤ (b.ttft : ℚ) := by linarith
    exact_mod_cast this
  · refine (exchangeSort_pairwise (fun r => -(r.e2eLatency : ℚ))
      (leaderboardByTTFT results)).imp ?_
    intro a b h
    have : (a.e2eLatency : ℚ) ≤ (b.e2eLatency : ℚ) := by linarith
    exact_mod_cast this

end LlmApiSpeed
